import Mathlib

/-!
Shallow embedding of the Dusk stake contract
(contracts/stake/src/wasm/callable.rs) and verification of its
specification claims.

Modelling conventions:
- u64 quantities are natural numbers; every arithmetic operation the
  contract performs on u64 values is wrapped modulo 2^64 (wrap64, sub64),
  matching release-mode wrapping semantics.
- APK public keys, BLS signatures, BlsScalar messages and contract ids are
  opaque and modelled as natural numbers; the host function verify_bls_sig
  is an oracle carried in the environment (Env.verify_bls_sig), and the
  message BlsScalar.from(t_e).to_bytes() is identified with the u64 t_e
  (the embedding is injective, so equality of messages is equality of the
  source values).
- The canonical key-value stores are association lists; insert returns the
  previous binding (replacing it, as canonical Map.insert does), get and
  remove likewise follow canonical Map semantics.  Store host errors are
  not modelled: per the spec the host commits nothing for an aborted
  invocation, so such runs are invisible to the state evolution.
- The two external transfer steps of an operation are modelled by boolean
  oracle outcomes passed as arguments (the value returned by
  dusk_abi.transact_raw); the pure construction of a TransferCall value is
  infallible.  slash additionally returns the list of transfer calls it
  actually issued, so that claims about which transfers were performed can
  be stated.
-/

namespace StakeSpec

/-- The u64 modulus 2^64. -/
def U64MOD : Nat := 2 ^ 64

/-- Wrapping u64 interpretation of a natural number. -/
def wrap64 (n : Nat) : Nat := n % U64MOD

/-- Wrapping u64 subtraction for operands below 2^64. -/
def sub64 (a b : Nat) : Nat := (a + U64MOD - b % U64MOD) % U64MOD

/-- t_m in the specs. -/
def MATURITY_PERIOD : Nat := 0

/-- t_b in the specs. -/
def EXPIRATION_PERIOD : Nat := 250000

/-- t_c in the specs. -/
def COOLDOWN_PERIOD : Nat := 0

/-- Minimum amount allowed to stake: 10,000 DUSK at 10 decimals. -/
def MINIMUM_STAKE : Nat := 100000000000000

/-- Maximum amount allowed to stake: 1,000,000 DUSK at 10 decimals. -/
def MAXIMUM_STAKE : Nat := 10000000000000000

/-- The slashing penalty, the literal 5000e10 of the source. -/
def PENALTY : Nat := 50000000000000

/-- A stake identifier: the Key struct, a public key paired with a counter
value w_i. -/
structure Key where
  pk : Nat
  w_i : Nat
deriving DecidableEq

/-- A stored stake record: the Stake struct. -/
structure Stake where
  value : Nat
  pk : Nat
  eligibility : Nat
  expiration : Nat
deriving DecidableEq

/-- A phoenix note, reduced to what the contract observes of it: the result
of Note.value(None), which is some v for a note whose value is in the
clear and none when the value cannot be decrypted. -/
structure Note where
  val : Option Nat
deriving DecidableEq

/-- A transfer-contract call issued through dusk_abi.transact_raw. -/
inductive Transfer where
  | withdrawFromContractTransparent (caller : Nat) (note : Note)
  | withdrawFromTransparentToContract (amount : Nat) (dest : Nat) (amount2 : Nat)
deriving DecidableEq

/-- Association-list lookup, canonical Map.get. -/
def alGet {α β : Type} [DecidableEq α] (m : List (α × β)) (k : α) : Option β :=
  (m.find? fun p => decide (p.1 = k)).map Prod.snd

/-- Association-list insertion, canonical Map.insert: returns the previous
binding together with the updated store (replacing the old binding when
one exists). -/
def alInsert {α β : Type} [DecidableEq α] (m : List (α × β)) (k : α) (v : β) :
    Option β × List (α × β) :=
  match alGet m k with
  | none => (none, (k, v) :: m)
  | some old => (some old, m.map fun p => if p.1 = k then (k, v) else p)

/-- Association-list removal, canonical Map.remove: returns the removed
binding together with the updated store. -/
def alRemove {α β : Type} [DecidableEq α] (m : List (α × β)) (k : α) :
    Option β × List (α × β) :=
  (alGet m k, m.filter fun p => !decide (p.1 = k))

/-- The persistent state of the StakeContract: the counter, the secondary
index stake_identifier_set (Counter to Key), the primary stake_mapping
(Key to Stake), and the two contract ids it holds. -/
structure StakeContract where
  counter : Nat
  stake_identifier_set : List (Nat × Key)
  stake_mapping : List (Key × Stake)
  transfer_contract : Nat
  arbitration_contract : Nat
deriving DecidableEq

/-- The host environment: block height, caller, and the verify_bls_sig
host oracle (public key, signature, message). -/
structure Env where
  block_height : Nat
  caller : Nat
  verify_bls_sig : Nat → Nat → Nat → Bool

/-- StakeContract.stake.  mkOk is the outcome of building the
send_to_contract_transparent call, sendOk the outcome of transact_raw on
it.  Returns the (Counter, bool) pair of the source together with the
updated state. -/
def stake (st : StakeContract) (env : Env) (value : Nat) (public_key : Nat)
    (spending_proof : List Nat) (mkOk sendOk : Bool) :
    (Nat × Bool) × StakeContract :=
  if MAXIMUM_STAKE < value ∨ value < MINIMUM_STAKE then
    ((0, false), st)
  else
    let eligibility := wrap64 (env.block_height + MATURITY_PERIOD)
    let expiration :=
      wrap64 (env.block_height + MATURITY_PERIOD + EXPIRATION_PERIOD)
    let stk : Stake :=
      { value := value, pk := public_key, eligibility := eligibility,
        expiration := expiration }
    let w_i := st.counter
    let k : Key := { pk := public_key, w_i := w_i }
    match alInsert st.stake_identifier_set st.counter k with
    | (none, set1) =>
      match alInsert st.stake_mapping k stk with
      | (none, map1) =>
        let st1 : StakeContract :=
          { st with stake_identifier_set := set1, stake_mapping := map1,
                    counter := wrap64 (st.counter + 1) }
        if mkOk then ((w_i, sendOk), st1) else ((w_i, false), st1)
      | (some _, map1) =>
        ((w_i, false),
         { st with stake_identifier_set := set1, stake_mapping := map1 })
    | (some _, set1) =>
      ((w_i, false), { st with stake_identifier_set := set1 })

/-- StakeContract.extend_stake. -/
def extend_stake (st : StakeContract) (env : Env) (w_i : Nat) (pk : Nat)
    (sig : Nat) : Bool × StakeContract :=
  let k : Key := { pk := pk, w_i := w_i }
  match alGet st.stake_mapping k with
  | none => (false, st)
  | some stk =>
    let t_e := stk.expiration
    if env.verify_bls_sig pk sig t_e = false then (false, st)
    else
      let stk1 : Stake :=
        { stk with expiration := wrap64 (stk.expiration + EXPIRATION_PERIOD) }
      match alInsert st.stake_mapping k stk1 with
      | (some _, map1) => (true, { st with stake_mapping := map1 })
      | (none, map1) => (false, { st with stake_mapping := map1 })

/-- StakeContract.withdraw_stake.  wOk is the outcome of transact_raw on
the withdraw_from_contract_transparent call.  The source discards the
value of the match on remove and returns the transact outcome. -/
def withdraw_stake (st : StakeContract) (env : Env) (w_i : Nat) (pk : Nat)
    (sig : Nat) (note : Note) (wOk : Bool) : Bool × StakeContract :=
  let k : Key := { pk := pk, w_i := w_i }
  match alGet st.stake_mapping k with
  | none => (false, st)
  | some stk =>
    let t_e := stk.expiration
    if wrap64 (env.block_height + COOLDOWN_PERIOD) ≤ t_e then (false, st)
    else if env.verify_bls_sig pk sig t_e = false then (false, st)
    else
      (wOk, { st with stake_mapping := (alRemove st.stake_mapping k).2 })

/-- Modelled from the spec: the method find_stake called by slash, whose
body is not under src.  Per section 4.5 of the spec it locates the
offending stake stored for the given public key; here it is the first
entry of the primary mapping owned by that key, and a zero-valued default
Stake when none exists. -/
def find_stake (st : StakeContract) (pk : Nat) : Stake :=
  match st.stake_mapping.find? fun p => decide (p.1.pk = pk) with
  | some p => p.2
  | none => { value := 0, pk := pk, eligibility := 0, expiration := 0 }

/-- StakeContract.slash.  t1Ok and t2Ok are the outcomes of transact_raw on
the two transfer calls.  Returns the bool result, the updated state and
the list of transfer calls actually issued, in order. -/
def slash (st : StakeContract) (env : Env) (pk : Nat) (m1 m2 : Nat)
    (sig1 sig2 : Nat) (note : Note) (t1Ok t2Ok : Bool) :
    Bool × StakeContract × List Transfer :=
  if m1 = m2 then (false, st, [])
  else if env.verify_bls_sig pk sig1 m1 = false then (false, st, [])
  else if env.verify_bls_sig pk sig2 m2 = false then (false, st, [])
  else
    match note.val with
    | some v =>
      if v ≠ PENALTY then (false, st, [])
      else
        let tr1 := Transfer.withdrawFromContractTransparent env.caller note
        if t1Ok = false then (false, st, [tr1])
        else
          let stk := find_stake st pk
          let dest :=
            if env.block_height < 6311520 then st.arbitration_contract else 0
          let amt := sub64 stk.value PENALTY
          let tr2 := Transfer.withdrawFromTransparentToContract amt dest amt
          if t2Ok = false then (false, st, [tr1, tr2])
          else (true, st, [tr1, tr2])
    | none => (true, st, [])

/-- The counter is fresh for the state: it does not occur in the
identifier set and no key of the primary mapping carries it.  This is the
part of invariant I3 that the stake insertions rely on. -/
def freshCounter (st : StakeContract) : Prop :=
  alGet st.stake_identifier_set st.counter = none ∧
  ∀ p ∈ st.stake_mapping, p.1.w_i ≠ st.counter

/-- Invariant I3 of the spec: the identifier set and the primary mapping
cover the same keys (every Counter entry points at a live Key and every
live Key is pointed at), and neither store holds a duplicate Counter or
Key. -/
def consistent (st : StakeContract) : Prop :=
  (∀ p ∈ st.stake_identifier_set, ∃ q ∈ st.stake_mapping, q.1 = p.2) ∧
  (∀ q ∈ st.stake_mapping, ∃ p ∈ st.stake_identifier_set, p.2 = q.1) ∧
  (st.stake_identifier_set.map Prod.fst).Nodup ∧
  (st.stake_mapping.map Prod.fst).Nodup

instance (st : StakeContract) : Decidable (freshCounter st) := by
  unfold freshCounter
  infer_instance

instance (st : StakeContract) : Decidable (consistent st) := by
  unfold consistent
  infer_instance

theorem wrap64_eq_of_lt {n : Nat} (h : n < U64MOD) : wrap64 n = n :=
  Nat.mod_eq_of_lt h

theorem wrap64_succ_ne (c : Nat) : wrap64 (c + 1) ≠ c := by
  have hM : U64MOD = 18446744073709551616 := by norm_num [U64MOD]
  unfold wrap64
  rw [hM]
  omega

theorem alGet_cons_self {α β : Type} [DecidableEq α] (m : List (α × β))
    (k : α) (v : β) : alGet ((k, v) :: m) k = some v := by
  simp [alGet, List.find?_cons]

theorem alGet_cons_of_ne {α β : Type} [DecidableEq α] (m : List (α × β))
    (a : α × β) {k : α} (h : a.1 ≠ k) :
    alGet (a :: m) k = alGet m k := by
  simp only [alGet, List.find?_cons]
  have hd : decide (a.1 = k) = false := decide_eq_false h
  simp [hd]

theorem alInsert_fst {α β : Type} [DecidableEq α] (m : List (α × β))
    (k : α) (v : β) : (alInsert m k v).1 = alGet m k := by
  unfold alInsert
  cases h : alGet m k <;> simp [h]

theorem alGet_eq_none_iff {α β : Type} [DecidableEq α] (m : List (α × β))
    (k : α) : alGet m k = none ↔ ∀ p ∈ m, p.1 ≠ k := by
  simp [alGet, List.find?_eq_none]

theorem alGet_replace_self {α β : Type} [DecidableEq α] (m : List (α × β))
    (k : α) (v : β) (h : alGet m k ≠ none) :
    alGet (m.map fun p => if p.1 = k then (k, v) else p) k = some v := by
  induction m with
  | nil => simp [alGet] at h
  | cons a t ih =>
    by_cases hp : a.1 = k
    · simp only [List.map_cons, if_pos hp]
      exact alGet_cons_self _ k v
    · simp only [List.map_cons, if_neg hp]
      rw [alGet_cons_of_ne t a hp] at h
      rw [alGet_cons_of_ne _ a hp]
      exact ih h

theorem alGet_replace_ne {α β : Type} [DecidableEq α] (m : List (α × β))
    (k : α) (v : β) {k' : α} (h : k' ≠ k) :
    alGet (m.map fun p => if p.1 = k then (k, v) else p) k' = alGet m k' := by
  induction m with
  | nil => rfl
  | cons a t ih =>
    by_cases hp : a.1 = k
    · simp only [List.map_cons, if_pos hp]
      rw [alGet_cons_of_ne _ (k, v) (show (k, v).1 ≠ k' from fun hh => h hh.symm)]
      rw [alGet_cons_of_ne t a (show a.1 ≠ k' from by rw [hp]; exact fun hh => h hh.symm)]
      exact ih
    · simp only [List.map_cons, if_neg hp]
      by_cases ha : a.1 = k'
      · simp [alGet, List.find?_cons, ha]
      · rw [alGet_cons_of_ne _ a ha, alGet_cons_of_ne t a ha]
        exact ih

theorem alGet_insert_self {α β : Type} [DecidableEq α] (m : List (α × β))
    (k : α) (v : β) : alGet (alInsert m k v).2 k = some v := by
  cases h : alGet m k with
  | none =>
    simp only [alInsert, h]
    exact alGet_cons_self m k v
  | some old =>
    simp only [alInsert, h]
    exact alGet_replace_self m k v (by simp [h])

theorem alGet_insert_ne {α β : Type} [DecidableEq α] (m : List (α × β))
    (k : α) (v : β) {k' : α} (h : k' ≠ k) :
    alGet (alInsert m k v).2 k' = alGet m k' := by
  cases hg : alGet m k with
  | none =>
    simp only [alInsert, hg]
    exact alGet_cons_of_ne m (k, v) (fun hh => h hh.symm)
  | some old =>
    simp only [alInsert, hg]
    exact alGet_replace_ne m k v h

theorem alGet_remove_self {α β : Type} [DecidableEq α] (m : List (α × β))
    (k : α) : alGet (alRemove m k).2 k = none := by
  rw [alGet_eq_none_iff]
  intro p hp
  have hm := List.mem_filter.mp hp
  simpa using hm.2

theorem alReplace_map_fst {α β : Type} [DecidableEq α] (m : List (α × β))
    (k : α) (v : β) :
    (m.map fun p => if p.1 = k then (k, v) else p).map Prod.fst =
      m.map Prod.fst := by
  induction m with
  | nil => rfl
  | cons a t ih =>
    by_cases hp : a.1 = k
    · simp only [List.map_cons, if_pos hp, ih]
      simp [hp]
    · simp only [List.map_cons, if_neg hp, ih]

theorem stake_eval_oob (st : StakeContract) (env : Env) (value pk : Nat)
    (proof : List Nat) (mkOk sendOk : Bool)
    (hb : MAXIMUM_STAKE < value ∨ value < MINIMUM_STAKE) :
    stake st env value pk proof mkOk sendOk = ((0, false), st) := by
  simp only [stake, if_pos hb]

theorem stake_eval_fresh (st : StakeContract) (env : Env) (value pk : Nat)
    (proof : List Nat) (mkOk sendOk : Bool)
    (hb : ¬ (MAXIMUM_STAKE < value ∨ value < MINIMUM_STAKE))
    (h1 : alGet st.stake_identifier_set st.counter = none)
    (h2 : alGet st.stake_mapping (Key.mk pk st.counter) = none) :
    stake st env value pk proof mkOk sendOk =
      ((st.counter, mkOk && sendOk),
       { st with
         stake_identifier_set :=
           (st.counter, Key.mk pk st.counter) :: st.stake_identifier_set,
         stake_mapping :=
           (Key.mk pk st.counter,
            Stake.mk value pk (wrap64 (env.block_height + MATURITY_PERIOD))
              (wrap64 (env.block_height + MATURITY_PERIOD + EXPIRATION_PERIOD)))
             :: st.stake_mapping,
         counter := wrap64 (st.counter + 1) }) := by
  simp only [stake, if_neg hb, alInsert, h1, h2]
  cases mkOk <;> cases sendOk <;> rfl

theorem extend_eval_absent (st : StakeContract) (env : Env) (w_i pk sig : Nat)
    (hg : alGet st.stake_mapping (Key.mk pk w_i) = none) :
    extend_stake st env w_i pk sig = (false, st) := by
  simp only [extend_stake, hg]

theorem extend_eval_badsig (st : StakeContract) (env : Env) (w_i pk sig : Nat)
    (stk : Stake) (hg : alGet st.stake_mapping (Key.mk pk w_i) = some stk)
    (hs : env.verify_bls_sig pk sig stk.expiration = false) :
    extend_stake st env w_i pk sig = (false, st) := by
  simp only [extend_stake, hg, hs, if_pos]

theorem extend_eval_ok (st : StakeContract) (env : Env) (w_i pk sig : Nat)
    (stk : Stake) (hg : alGet st.stake_mapping (Key.mk pk w_i) = some stk)
    (hs : env.verify_bls_sig pk sig stk.expiration = true) :
    extend_stake st env w_i pk sig =
      (true,
       { st with stake_mapping :=
          (alInsert st.stake_mapping (Key.mk pk w_i)
            { stk with
              expiration := wrap64 (stk.expiration + EXPIRATION_PERIOD) }).2 }) := by
  have hfst := alInsert_fst st.stake_mapping (Key.mk pk w_i)
    { stk with expiration := wrap64 (stk.expiration + EXPIRATION_PERIOD) }
  rw [hg] at hfst
  simp only [extend_stake, hg, hs]
  rw [if_neg (by simp)]
  cases hi : alInsert st.stake_mapping (Key.mk pk w_i)
      { stk with expiration := wrap64 (stk.expiration + EXPIRATION_PERIOD) } with
  | mk fst snd =>
    rw [hi] at hfst
    simp only at hfst
    subst hfst
    simp

theorem withdraw_eval_absent (st : StakeContract) (env : Env) (w_i pk sig : Nat)
    (note : Note) (wOk : Bool)
    (hg : alGet st.stake_mapping (Key.mk pk w_i) = none) :
    withdraw_stake st env w_i pk sig note wOk = (false, st) := by
  simp only [withdraw_stake, hg]

theorem withdraw_eval_early (st : StakeContract) (env : Env) (w_i pk sig : Nat)
    (note : Note) (wOk : Bool) (stk : Stake)
    (hg : alGet st.stake_mapping (Key.mk pk w_i) = some stk)
    (ht : wrap64 (env.block_height + COOLDOWN_PERIOD) ≤ stk.expiration) :
    withdraw_stake st env w_i pk sig note wOk = (false, st) := by
  simp only [withdraw_stake, hg, if_pos ht]

theorem withdraw_eval_badsig (st : StakeContract) (env : Env) (w_i pk sig : Nat)
    (note : Note) (wOk : Bool) (stk : Stake)
    (hg : alGet st.stake_mapping (Key.mk pk w_i) = some stk)
    (ht : ¬ wrap64 (env.block_height + COOLDOWN_PERIOD) ≤ stk.expiration)
    (hs : env.verify_bls_sig pk sig stk.expiration = false) :
    withdraw_stake st env w_i pk sig note wOk = (false, st) := by
  simp only [withdraw_stake, hg, if_neg ht, hs, if_pos]

theorem withdraw_eval_ok (st : StakeContract) (env : Env) (w_i pk sig : Nat)
    (note : Note) (wOk : Bool) (stk : Stake)
    (hg : alGet st.stake_mapping (Key.mk pk w_i) = some stk)
    (ht : ¬ wrap64 (env.block_height + COOLDOWN_PERIOD) ≤ stk.expiration)
    (hs : env.verify_bls_sig pk sig stk.expiration = true) :
    withdraw_stake st env w_i pk sig note wOk =
      (wOk,
       { st with
         stake_mapping := (alRemove st.stake_mapping (Key.mk pk w_i)).2 }) := by
  simp only [withdraw_stake, hg, if_neg ht, hs]
  rw [if_neg (by simp)]

theorem sub64_eq_of_le {a b : Nat} (hb : b ≤ a) (ha : a < U64MOD) :
    sub64 a b = a - b := by
  unfold sub64
  have hbM : b < U64MOD := lt_of_le_of_lt hb ha
  rw [Nat.mod_eq_of_lt hbM]
  have h1 : a + U64MOD - b = (a - b) + U64MOD := by omega
  rw [h1, Nat.add_mod_right]
  exact Nat.mod_eq_of_lt (by omega)

theorem alInsert_replace_eq {α β : Type} [DecidableEq α] (m : List (α × β))
    (k : α) (v : β) {old : β} (hg : alGet m k = some old) :
    (alInsert m k v).2 = m.map fun p => if p.1 = k then (k, v) else p := by
  simp [alInsert, hg]

theorem alInsert_fresh_eq {α β : Type} [DecidableEq α] (m : List (α × β))
    (k : α) (v : β) (hg : alGet m k = none) :
    (alInsert m k v).2 = (k, v) :: m := by
  simp [alInsert, hg]

theorem alGet_none_not_mem_fst {α β : Type} [DecidableEq α]
    {m : List (α × β)} {k : α} (hg : alGet m k = none) :
    k ∉ m.map Prod.fst := by
  intro hk
  rcases List.mem_map.mp hk with ⟨p, hp, hpk⟩
  exact (alGet_eq_none_iff m k).mp hg p hp hpk

theorem slash_eval_eqmsg (st : StakeContract) (env : Env)
    (pk m1 m2 s1 s2 : Nat) (note : Note) (t1Ok t2Ok : Bool) (hm : m1 = m2) :
    slash st env pk m1 m2 s1 s2 note t1Ok t2Ok = (false, st, []) := by
  simp only [slash, if_pos hm]

theorem slash_eval_badsig1 (st : StakeContract) (env : Env)
    (pk m1 m2 s1 s2 : Nat) (note : Note) (t1Ok t2Ok : Bool)
    (hb1 : env.verify_bls_sig pk s1 m1 = false) :
    slash st env pk m1 m2 s1 s2 note t1Ok t2Ok = (false, st, []) := by
  by_cases hm : m1 = m2
  · exact slash_eval_eqmsg st env pk m1 m2 s1 s2 note t1Ok t2Ok hm
  · simp only [slash, if_neg hm, if_pos hb1]

theorem slash_eval_badsig2 (st : StakeContract) (env : Env)
    (pk m1 m2 s1 s2 : Nat) (note : Note) (t1Ok t2Ok : Bool)
    (hb2 : env.verify_bls_sig pk s2 m2 = false) :
    slash st env pk m1 m2 s1 s2 note t1Ok t2Ok = (false, st, []) := by
  by_cases hm : m1 = m2
  · exact slash_eval_eqmsg st env pk m1 m2 s1 s2 note t1Ok t2Ok hm
  · cases hb1 : env.verify_bls_sig pk s1 m1 with
    | false => exact slash_eval_badsig1 st env pk m1 m2 s1 s2 note t1Ok t2Ok hb1
    | true =>
      simp only [slash, if_neg hm]
      rw [if_neg (by simp [hb1]), if_pos hb2]

theorem slash_eval_nonote (st : StakeContract) (env : Env)
    (pk m1 m2 s1 s2 : Nat) (note : Note) (t1Ok t2Ok : Bool)
    (hm : ¬ m1 = m2) (hb1 : env.verify_bls_sig pk s1 m1 = true)
    (hb2 : env.verify_bls_sig pk s2 m2 = true) (hnv : note.val = none) :
    slash st env pk m1 m2 s1 s2 note t1Ok t2Ok = (true, st, []) := by
  simp only [slash, if_neg hm, hnv]
  rw [if_neg (by simp [hb1]), if_neg (by simp [hb2])]

theorem slash_eval_badvalue (st : StakeContract) (env : Env)
    (pk m1 m2 s1 s2 : Nat) (note : Note) (t1Ok t2Ok : Bool) {v : Nat}
    (hm : ¬ m1 = m2) (hb1 : env.verify_bls_sig pk s1 m1 = true)
    (hb2 : env.verify_bls_sig pk s2 m2 = true) (hnv : note.val = some v)
    (hvp : v ≠ PENALTY) :
    slash st env pk m1 m2 s1 s2 note t1Ok t2Ok = (false, st, []) := by
  simp only [slash, if_neg hm, hnv]
  rw [if_neg (by simp [hb1]), if_neg (by simp [hb2]), if_pos hvp]

theorem slash_eval_t1fail (st : StakeContract) (env : Env)
    (pk m1 m2 s1 s2 : Nat) (note : Note) (t2Ok : Bool)
    (hm : ¬ m1 = m2) (hb1 : env.verify_bls_sig pk s1 m1 = true)
    (hb2 : env.verify_bls_sig pk s2 m2 = true)
    (hnv : note.val = some PENALTY) :
    slash st env pk m1 m2 s1 s2 note false t2Ok =
      (false, st, [Transfer.withdrawFromContractTransparent env.caller note]) := by
  simp only [slash, if_neg hm, hnv]
  rw [if_neg (by simp [hb1]), if_neg (by simp [hb2])]
  rw [if_neg (by simp : ¬ PENALTY ≠ PENALTY)]
  simp

theorem slash_eval_full (st : StakeContract) (env : Env)
    (pk m1 m2 s1 s2 : Nat) (note : Note) (t2Ok : Bool)
    (hm : ¬ m1 = m2) (hb1 : env.verify_bls_sig pk s1 m1 = true)
    (hb2 : env.verify_bls_sig pk s2 m2 = true)
    (hnv : note.val = some PENALTY) :
    slash st env pk m1 m2 s1 s2 note true t2Ok =
      (t2Ok, st,
       [Transfer.withdrawFromContractTransparent env.caller note,
        Transfer.withdrawFromTransparentToContract
          (sub64 (find_stake st pk).value PENALTY)
          (if env.block_height < 6311520 then st.arbitration_contract else 0)
          (sub64 (find_stake st pk).value PENALTY)]) := by
  simp only [slash, if_neg hm, hnv]
  rw [if_neg (by simp [hb1]), if_neg (by simp [hb2])]
  rw [if_neg (by simp : ¬ PENALTY ≠ PENALTY)]
  rw [if_neg (by simp : ¬ (true : Bool) = false)]
  cases t2Ok with
  | false => rw [if_pos rfl]
  | true => rw [if_neg (by simp : ¬ (true : Bool) = false)]

theorem stake_eval_dup1 (st : StakeContract) (env : Env) (value pk : Nat)
    (proof : List Nat) (mkOk sendOk : Bool)
    (hb : ¬ (MAXIMUM_STAKE < value ∨ value < MINIMUM_STAKE)) {k0 : Key}
    (h1 : alGet st.stake_identifier_set st.counter = some k0) :
    stake st env value pk proof mkOk sendOk =
      ((st.counter, false),
       { st with stake_identifier_set :=
          st.stake_identifier_set.map fun p =>
            if p.1 = st.counter then (st.counter, Key.mk pk st.counter)
            else p }) := by
  simp only [stake, if_neg hb, alInsert, h1]

theorem stake_eval_dup2 (st : StakeContract) (env : Env) (value pk : Nat)
    (proof : List Nat) (mkOk sendOk : Bool)
    (hb : ¬ (MAXIMUM_STAKE < value ∨ value < MINIMUM_STAKE))
    (h1 : alGet st.stake_identifier_set st.counter = none) {s0 : Stake}
    (h2 : alGet st.stake_mapping (Key.mk pk st.counter) = some s0) :
    stake st env value pk proof mkOk sendOk =
      ((st.counter, false),
       { st with
         stake_identifier_set :=
           (st.counter, Key.mk pk st.counter) :: st.stake_identifier_set,
         stake_mapping :=
           st.stake_mapping.map fun p =>
             if p.1 = Key.mk pk st.counter then
               (Key.mk pk st.counter,
                Stake.mk value pk (wrap64 (env.block_height + MATURITY_PERIOD))
                  (wrap64
                    (env.block_height + MATURITY_PERIOD + EXPIRATION_PERIOD)))
             else p }) := by
  simp only [stake, if_neg hb, alInsert, h1, h2]

/-- Witness environment: every signature verifies. -/
def envW : Env := Env.mk 100 1 fun _ _ _ => true

/-- Witness environment: no signature verifies. -/
def envB : Env := Env.mk 100 1 fun _ _ _ => false

/-- Witness state: empty stores, counter 0. -/
def stW : StakeContract := StakeContract.mk 0 [] [] 11 22

/-- Witness stake record owned by key 7, created at height 100. -/
def stkA : Stake := Stake.mk MINIMUM_STAKE 7 100 100250

/-- Witness state holding stkA under counter 0. -/
def stA : StakeContract :=
  StakeContract.mk 1 [(0, Key.mk 7 0)] [(Key.mk 7 0, stkA)] 11 22

/-- Claim C5: over a state whose counter is fresh (invariant I3), stake
fails with no state mutation, returning the default counter and false,
exactly when the value is below MINIMUM_STAKE or above MAXIMUM_STAKE. -/
theorem stake_bounds_iff (st : StakeContract) (env : Env) (value pk : Nat)
    (proof : List Nat) (mkOk sendOk : Bool) (hf : freshCounter st) :
    (value < MINIMUM_STAKE ∨ MAXIMUM_STAKE < value) ↔
      stake st env value pk proof mkOk sendOk = ((0, false), st) := by
  constructor
  · intro h
    exact stake_eval_oob st env value pk proof mkOk sendOk (h.elim Or.inr Or.inl)
  · intro h
    by_contra hnb
    push_neg at hnb
    have hb : ¬ (MAXIMUM_STAKE < value ∨ value < MINIMUM_STAKE) := by
      rcases hnb with ⟨ha, hb2⟩
      omega
    have h2 : alGet st.stake_mapping (Key.mk pk st.counter) = none := by
      rw [alGet_eq_none_iff]
      intro p hp he
      exact hf.2 p hp (by rw [he])
    rw [stake_eval_fresh st env value pk proof mkOk sendOk hb hf.1 h2] at h
    have hcnt := congrArg (fun r => r.2.counter) h
    simp only [] at hcnt
    exact wrap64_succ_ne st.counter hcnt

/-- Witness for C5: on the empty state, staking 5 units is under the
minimum and returns the default counter with failure, with nothing
touched. -/
theorem stake_bounds_iff_witness :
    stake stW envW 5 7 [] true true = ((0, false), stW) :=
  (stake_bounds_iff stW envW 5 7 [] true true
      (by constructor
          · rfl
          · intro p hp
            cases hp)).mp (Or.inl (by norm_num [MINIMUM_STAKE]))

/-- Claim C6: for an in-bounds value, stake returns the pre-increment
counter in every branch; the counter advances (by one, wrapping) exactly
when both insertions found no existing entry, whatever the transfer
outcomes are, and is left unchanged when either insertion collides. -/
theorem stake_counter_advance (st : StakeContract) (env : Env)
    (value pk : Nat) (proof : List Nat) (mkOk sendOk : Bool)
    (hmin : MINIMUM_STAKE ≤ value) (hmax : value ≤ MAXIMUM_STAKE) :
    (stake st env value pk proof mkOk sendOk).1.1 = st.counter ∧
    ((stake st env value pk proof mkOk sendOk).2.counter =
        wrap64 (st.counter + 1) ↔
      alGet st.stake_identifier_set st.counter = none ∧
      alGet st.stake_mapping (Key.mk pk st.counter) = none) ∧
    (¬ (alGet st.stake_identifier_set st.counter = none ∧
        alGet st.stake_mapping (Key.mk pk st.counter) = none) →
      (stake st env value pk proof mkOk sendOk).2.counter = st.counter) := by
  have hb : ¬ (MAXIMUM_STAKE < value ∨ value < MINIMUM_STAKE) := by omega
  cases h1 : alGet st.stake_identifier_set st.counter with
  | none =>
    cases h2 : alGet st.stake_mapping (Key.mk pk st.counter) with
    | none =>
      rw [stake_eval_fresh st env value pk proof mkOk sendOk hb h1 h2]
      refine ⟨rfl, ?_, ?_⟩
      · simp
      · intro hc
        exact absurd ⟨rfl, rfl⟩ hc
    | some s0 =>
      rw [stake_eval_dup2 st env value pk proof mkOk sendOk hb h1 h2]
      refine ⟨rfl, ?_, fun _ => rfl⟩
      constructor
      · intro hc
        exact absurd hc.symm (wrap64_succ_ne st.counter)
      · rintro ⟨-, hc2⟩
        cases hc2
  | some k0 =>
    rw [stake_eval_dup1 st env value pk proof mkOk sendOk hb h1]
    refine ⟨rfl, ?_, fun _ => rfl⟩
    constructor
    · intro hc
      exact absurd hc.symm (wrap64_succ_ne st.counter)
    · rintro ⟨hc1, -⟩
      cases hc1

/-- Witness for C6: on the empty state with an in-bounds value, the
returned counter is the pre-increment 0, the counter advances to 1, and
the collision case is vacuous. -/
theorem stake_counter_advance_witness :
    (stake stW envW MINIMUM_STAKE 7 [] true false).1.1 = stW.counter ∧
    ((stake stW envW MINIMUM_STAKE 7 [] true false).2.counter =
        wrap64 (stW.counter + 1) ↔
      alGet stW.stake_identifier_set stW.counter = none ∧
      alGet stW.stake_mapping (Key.mk 7 stW.counter) = none) ∧
    (¬ (alGet stW.stake_identifier_set stW.counter = none ∧
        alGet stW.stake_mapping (Key.mk 7 stW.counter) = none) →
      (stake stW envW MINIMUM_STAKE 7 [] true false).2.counter =
        stW.counter) :=
  stake_counter_advance stW envW MINIMUM_STAKE 7 [] true false
    (le_refl MINIMUM_STAKE) (by norm_num [MINIMUM_STAKE, MAXIMUM_STAKE])

/-- Claim C7: a successful stake at height h stores the stake with
eligibility h and expiration h plus 250000, and one successful extend adds
exactly 250000 to the stored expiration leaving value, owner and
eligibility unchanged. -/
theorem expiration_math (st : StakeContract) (env : Env) :
    (∀ value pk proof, freshCounter st →
      MINIMUM_STAKE ≤ value → value ≤ MAXIMUM_STAKE →
      env.block_height + EXPIRATION_PERIOD < U64MOD →
      (stake st env value pk proof true true).1.2 = true ∧
      alGet (stake st env value pk proof true true).2.stake_mapping
          (Key.mk pk st.counter) =
        some (Stake.mk value pk env.block_height
          (env.block_height + EXPIRATION_PERIOD))) ∧
    (∀ w_i pk sig stk, alGet st.stake_mapping (Key.mk pk w_i) = some stk →
      env.verify_bls_sig pk sig stk.expiration = true →
      stk.expiration + EXPIRATION_PERIOD < U64MOD →
      (extend_stake st env w_i pk sig).1 = true ∧
      alGet (extend_stake st env w_i pk sig).2.stake_mapping (Key.mk pk w_i) =
        some (Stake.mk stk.value stk.pk stk.eligibility
          (stk.expiration + EXPIRATION_PERIOD))) := by
  constructor
  · intro value pk proof hf hmin hmax hov
    have hb : ¬ (MAXIMUM_STAKE < value ∨ value < MINIMUM_STAKE) := by omega
    have h2 : alGet st.stake_mapping (Key.mk pk st.counter) = none := by
      rw [alGet_eq_none_iff]
      intro p hp he
      exact hf.2 p hp (by rw [he])
    rw [stake_eval_fresh st env value pk proof true true hb hf.1 h2]
    refine ⟨rfl, ?_⟩
    have hh : env.block_height < U64MOD :=
      lt_of_le_of_lt (Nat.le_add_right _ _) hov
    have he : wrap64 (env.block_height + MATURITY_PERIOD) = env.block_height := by
      simp only [MATURITY_PERIOD, Nat.add_zero]
      exact wrap64_eq_of_lt hh
    have hx : wrap64 (env.block_height + MATURITY_PERIOD + EXPIRATION_PERIOD) =
        env.block_height + EXPIRATION_PERIOD := by
      simp only [MATURITY_PERIOD, Nat.add_zero]
      exact wrap64_eq_of_lt hov
    simp only []
    rw [alGet_cons_self, he, hx]
  · intro w_i pk sig stk hg hs hov
    rw [extend_eval_ok st env w_i pk sig stk hg hs]
    refine ⟨rfl, ?_⟩
    simp only []
    rw [alGet_insert_self]
    rw [wrap64_eq_of_lt hov]

/-- Witness for C7: staking the minimum at height 100 on the empty state
stores eligibility 100 and expiration 100250; extending the stored stake
of stA moves its expiration to 350250 with eligibility still 100. -/
theorem expiration_math_witness :
    ((stake stW envW MINIMUM_STAKE 7 [] true true).1.2 = true ∧
      alGet (stake stW envW MINIMUM_STAKE 7 [] true true).2.stake_mapping
          (Key.mk 7 stW.counter) =
        some (Stake.mk MINIMUM_STAKE 7 envW.block_height
          (envW.block_height + EXPIRATION_PERIOD))) ∧
    ((extend_stake stA envW 0 7 3).1 = true ∧
      alGet (extend_stake stA envW 0 7 3).2.stake_mapping (Key.mk 7 0) =
        some (Stake.mk stkA.value stkA.pk stkA.eligibility
          (stkA.expiration + EXPIRATION_PERIOD))) :=
  ⟨(expiration_math stW envW).1 MINIMUM_STAKE 7 []
      ⟨rfl, fun p hp => by cases hp⟩ (le_refl _)
      (by norm_num [MINIMUM_STAKE, MAXIMUM_STAKE])
      (by norm_num [envW, EXPIRATION_PERIOD, U64MOD]),
    (expiration_math stA envW).2 0 7 3 stkA (by decide) rfl
      (by norm_num [EXPIRATION_PERIOD, U64MOD, stkA])⟩

/-- Claim C8: with a stored stake, a signature the oracle rejects over the
message encoding the current expiration makes extend return false without
mutating anything and withdraw return false without removing the record. -/
theorem auth_gate (st : StakeContract) (env : Env) (w_i pk sig : Nat)
    (note : Note) (wOk : Bool) (stk : Stake)
    (hg : alGet st.stake_mapping (Key.mk pk w_i) = some stk)
    (hs : env.verify_bls_sig pk sig stk.expiration = false) :
    extend_stake st env w_i pk sig = (false, st) ∧
    withdraw_stake st env w_i pk sig note wOk = (false, st) := by
  refine ⟨extend_eval_badsig st env w_i pk sig stk hg hs, ?_⟩
  by_cases ht : wrap64 (env.block_height + COOLDOWN_PERIOD) ≤ stk.expiration
  · exact withdraw_eval_early st env w_i pk sig note wOk stk hg ht
  · exact withdraw_eval_badsig st env w_i pk sig note wOk stk hg ht hs

/-- Witness for C8: under the all-rejecting oracle, extend and withdraw on
the stored stake of stA both fail and leave the state unchanged. -/
theorem auth_gate_witness :
    extend_stake stA envB 0 7 3 = (false, stA) ∧
    withdraw_stake stA envB 0 7 3 (Note.mk (some 5)) true = (false, stA) :=
  auth_gate stA envB 0 7 3 (Note.mk (some 5)) true stkA (by decide) rfl

/-- Witness stake record whose expiration equals the witness height 100. -/
def stkB : Stake := Stake.mk MINIMUM_STAKE 7 100 100

/-- Witness state holding stkB under counter 0. -/
def stB : StakeContract :=
  StakeContract.mk 1 [(0, Key.mk 7 0)] [(Key.mk 7 0, stkB)] 11 22

/-- Claim C2 counterexample: at a height exactly equal to the stored
expiration — which, with COOLDOWN_PERIOD equal to zero, the claim says is
already withdrawable — withdraw returns failure and leaves the record in
place even though the signature oracle accepts the signature and the
downstream transfer would succeed: the source gate is
expiration greater or equal to height, not strictly greater. -/
theorem withdraw_at_expiration_fails :
    alGet stB.stake_mapping (Key.mk 7 0) = some stkB ∧
    stkB.expiration = envW.block_height ∧
    COOLDOWN_PERIOD = 0 ∧
    envW.verify_bls_sig 7 3 stkB.expiration = true ∧
    withdraw_stake stB envW 0 7 3 (Note.mk (some 5)) true = (false, stB) := by
  exact ⟨by decide, rfl, rfl, rfl, by decide⟩

/-- Claim C2 amended: with a stored stake, withdraw fails with no mutation
whenever the expiration is at least the current height plus
COOLDOWN_PERIOD — in particular at a height exactly equal to the
expiration — regardless of signature validity; when the height plus
COOLDOWN_PERIOD exceeds the expiration and the signature verifies, it
removes the record, and reports success exactly when the downstream note
transfer succeeds. -/
theorem withdraw_timing (st : StakeContract) (env : Env) (w_i pk sig : Nat)
    (note : Note) (wOk : Bool) (stk : Stake)
    (hg : alGet st.stake_mapping (Key.mk pk w_i) = some stk)
    (hh : env.block_height + COOLDOWN_PERIOD < U64MOD) :
    (env.block_height + COOLDOWN_PERIOD ≤ stk.expiration →
      withdraw_stake st env w_i pk sig note wOk = (false, st)) ∧
    (stk.expiration < env.block_height + COOLDOWN_PERIOD →
      env.verify_bls_sig pk sig stk.expiration = true →
      withdraw_stake st env w_i pk sig note wOk =
        (wOk,
         { st with
           stake_mapping := (alRemove st.stake_mapping (Key.mk pk w_i)).2 }) ∧
      alGet (withdraw_stake st env w_i pk sig note wOk).2.stake_mapping
          (Key.mk pk w_i) = none) := by
  have hw : wrap64 (env.block_height + COOLDOWN_PERIOD) =
      env.block_height + COOLDOWN_PERIOD := wrap64_eq_of_lt hh
  constructor
  · intro hle
    exact withdraw_eval_early st env w_i pk sig note wOk stk hg
      (by rw [hw]; exact hle)
  · intro hlt hs
    have ht : ¬ wrap64 (env.block_height + COOLDOWN_PERIOD) ≤ stk.expiration := by
      rw [hw]
      omega
    refine ⟨withdraw_eval_ok st env w_i pk sig note wOk stk hg ht hs, ?_⟩
    rw [withdraw_eval_ok st env w_i pk sig note wOk stk hg ht hs]
    exact alGet_remove_self st.stake_mapping (Key.mk pk w_i)

/-- Witness for C2 amended: at height 100 the stake of stA (expiration
100250) cannot be withdrawn, and at height 400000 with an accepted
signature the record is removed and the result mirrors the transfer
outcome. -/
theorem withdraw_timing_witness :
    withdraw_stake stA envW 0 7 3 (Note.mk (some 5)) true = (false, stA) ∧
    (withdraw_stake stA (Env.mk 400000 1 fun _ _ _ => true) 0 7 3
        (Note.mk (some 5)) true =
      (true,
       { stA with
         stake_mapping := (alRemove stA.stake_mapping (Key.mk 7 0)).2 }) ∧
     alGet (withdraw_stake stA (Env.mk 400000 1 fun _ _ _ => true) 0 7 3
         (Note.mk (some 5)) true).2.stake_mapping (Key.mk 7 0) = none) :=
  ⟨(withdraw_timing stA envW 0 7 3 (Note.mk (some 5)) true stkA (by decide)
      (by norm_num [envW, COOLDOWN_PERIOD, U64MOD])).1
      (by norm_num [envW, COOLDOWN_PERIOD, stkA]),
   (withdraw_timing stA (Env.mk 400000 1 fun _ _ _ => true) 0 7 3
      (Note.mk (some 5)) true stkA (by decide)
      (by norm_num [COOLDOWN_PERIOD, U64MOD])).2
      (by norm_num [COOLDOWN_PERIOD, stkA]) rfl⟩

theorem fst_if_replace {α β : Type} [DecidableEq α] (q : α × β) (k : α)
    (v : β) : (if q.1 = k then (k, v) else q).1 = q.1 := by
  by_cases h : q.1 = k
  · rw [if_pos h]
    exact h.symm
  · rw [if_neg h]

theorem slash_state (st : StakeContract) (env : Env) (pk m1 m2 s1 s2 : Nat)
    (note : Note) (t1Ok t2Ok : Bool) :
    (slash st env pk m1 m2 s1 s2 note t1Ok t2Ok).2.1 = st := by
  unfold slash
  repeat' split
  all_goals rfl

/-- Claim C1 counterexample: stA satisfies the lock-step invariant, a
lawful withdraw succeeds, and afterwards the identifier set still holds
counter 0 while the mapping no longer holds its key: withdraw removes the
record only from the primary mapping. -/
theorem withdraw_desyncs_identifier_set :
    consistent stA ∧
    (withdraw_stake stA (Env.mk 400000 1 fun _ _ _ => true) 0 7 3
        (Note.mk (some 5)) true).1 = true ∧
    ¬ consistent
        (withdraw_stake stA (Env.mk 400000 1 fun _ _ _ => true) 0 7 3
          (Note.mk (some 5)) true).2 := by
  exact ⟨by decide, by decide, by decide⟩

/-- Claim C1 amended: stake (from a fresh-counter consistent state),
extend and slash preserve the lock-step consistency of the identifier set
and the mapping, and stake never inserts a Counter or Key twice; withdraw
however removes the Key only from the primary mapping and leaves the
identifier set untouched, so after a successful withdraw the two stores
disagree. -/
theorem store_consistency (st : StakeContract) (env : Env) :
    (∀ value pk proof mkOk sendOk, freshCounter st → consistent st →
      consistent (stake st env value pk proof mkOk sendOk).2) ∧
    (∀ w_i pk sig, consistent st →
      consistent (extend_stake st env w_i pk sig).2) ∧
    (∀ pk m1 m2 s1 s2 note t1Ok t2Ok,
      (slash st env pk m1 m2 s1 s2 note t1Ok t2Ok).2.1 = st) ∧
    (∀ w_i pk sig note wOk,
      (withdraw_stake st env w_i pk sig note wOk).2.stake_identifier_set =
        st.stake_identifier_set ∧
      ((withdraw_stake st env w_i pk sig note wOk).2.stake_mapping =
          st.stake_mapping ∨
        (withdraw_stake st env w_i pk sig note wOk).2.stake_mapping =
          (alRemove st.stake_mapping (Key.mk pk w_i)).2)) := by
  refine ⟨?_, ?_, ?_, ?_⟩
  · intro value pk proof mkOk sendOk hf hc
    by_cases hb : MAXIMUM_STAKE < value ∨ value < MINIMUM_STAKE
    · rw [stake_eval_oob st env value pk proof mkOk sendOk hb]
      exact hc
    · have h2 : alGet st.stake_mapping (Key.mk pk st.counter) = none := by
        rw [alGet_eq_none_iff]
        intro p hp he
        exact hf.2 p hp (by rw [he])
      rw [stake_eval_fresh st env value pk proof mkOk sendOk hb hf.1 h2]
      obtain ⟨hc1, hc2, hc3, hc4⟩ := hc
      refine ⟨?_, ?_, ?_, ?_⟩
      · intro p hp
        rcases List.mem_cons.mp hp with hpe | hpm
        · subst hpe
          exact ⟨_, List.mem_cons_self _ _, rfl⟩
        · obtain ⟨q, hq, hqe⟩ := hc1 p hpm
          exact ⟨q, List.mem_cons_of_mem _ hq, hqe⟩
      · intro q hq
        rcases List.mem_cons.mp hq with hqe | hqm
        · subst hqe
          exact ⟨_, List.mem_cons_self _ _, rfl⟩
        · obtain ⟨p, hp, hpe⟩ := hc2 q hqm
          exact ⟨p, List.mem_cons_of_mem _ hp, hpe⟩
      · simp only [List.map_cons]
        exact List.nodup_cons.mpr ⟨alGet_none_not_mem_fst hf.1, hc3⟩
      · simp only [List.map_cons]
        refine List.nodup_cons.mpr ⟨?_, hc4⟩
        intro hk
        rcases List.mem_map.mp hk with ⟨p, hp, hpk⟩
        exact hf.2 p hp (by rw [hpk])
  · intro w_i pk sig hc
    cases hg : alGet st.stake_mapping (Key.mk pk w_i) with
    | none =>
      rw [extend_eval_absent st env w_i pk sig hg]
      exact hc
    | some stk =>
      cases hs : env.verify_bls_sig pk sig stk.expiration with
      | false =>
        rw [extend_eval_badsig st env w_i pk sig stk hg hs]
        exact hc
      | true =>
        rw [extend_eval_ok st env w_i pk sig stk hg hs]
        rw [alInsert_replace_eq st.stake_mapping (Key.mk pk w_i) _ hg]
        obtain ⟨hc1, hc2, hc3, hc4⟩ := hc
        refine ⟨?_, ?_, hc3, ?_⟩
        · intro p hp
          obtain ⟨q, hq, hqe⟩ := hc1 p hp
          exact ⟨_, List.mem_map_of_mem _ hq, by rw [fst_if_replace]; exact hqe⟩
        · intro q' hq'
          obtain ⟨q, hq, hqf⟩ := List.mem_map.mp hq'
          obtain ⟨p, hp, hpe⟩ := hc2 q hq
          refine ⟨p, hp, ?_⟩
          rw [← hqf, fst_if_replace]
          exact hpe
        · rw [alReplace_map_fst]
          exact hc4
  · intro pk m1 m2 s1 s2 note t1Ok t2Ok
    exact slash_state st env pk m1 m2 s1 s2 note t1Ok t2Ok
  · intro w_i pk sig note wOk
    cases hg : alGet st.stake_mapping (Key.mk pk w_i) with
    | none =>
      rw [withdraw_eval_absent st env w_i pk sig note wOk hg]
      exact ⟨rfl, Or.inl rfl⟩
    | some stk =>
      by_cases ht : wrap64 (env.block_height + COOLDOWN_PERIOD) ≤ stk.expiration
      · rw [withdraw_eval_early st env w_i pk sig note wOk stk hg ht]
        exact ⟨rfl, Or.inl rfl⟩
      · cases hs : env.verify_bls_sig pk sig stk.expiration with
        | false =>
          rw [withdraw_eval_badsig st env w_i pk sig note wOk stk hg ht hs]
          exact ⟨rfl, Or.inl rfl⟩
        | true =>
          rw [withdraw_eval_ok st env w_i pk sig note wOk stk hg ht hs]
          exact ⟨rfl, Or.inr rfl⟩

/-- Witness for C1 amended: a stake on the empty state and an extend on
stA both leave the two stores consistent. -/
theorem store_consistency_witness :
    consistent (stake stW envW MINIMUM_STAKE 7 [] true true).2 ∧
    consistent (extend_stake stA envW 0 7 3).2 :=
  ⟨(store_consistency stW envW).1 MINIMUM_STAKE 7 [] true true
      ⟨rfl, fun p hp => by cases hp⟩ (by decide),
   (store_consistency stA envW).2.1 0 7 3 (by decide)⟩

/-- Claim C3 counterexample: with genuine equivocation evidence that
passes every gate but a note whose value cannot be read, slash reports
success while issuing no transfer at all — the transfer block is guarded
by reading the note value, and its fall-through result is success. -/
theorem slash_unreadable_note_succeeds :
    (Note.mk (none : Option Nat)).val = none ∧
    (1 : Nat) ≠ 2 ∧
    envW.verify_bls_sig 7 3 1 = true ∧
    envW.verify_bls_sig 7 4 2 = true ∧
    slash stA envW 7 1 2 3 4 (Note.mk none) true true = (true, stA, []) := by
  exact ⟨rfl, by decide, rfl, rfl, by decide⟩

/-- Claim C3 amended: when the note value is readable, slash reports
success only if both transfer steps were issued and succeeded, and a
failed first transfer stops the run before the second transfer with a
failure result; when the note value is unreadable, slash skips both
transfer steps entirely and still reports success. -/
theorem slash_transfer_discipline (st : StakeContract) (env : Env)
    (pk m1 m2 s1 s2 : Nat) (note : Note) (t1Ok t2Ok : Bool)
    (hm : m1 ≠ m2) (hb1 : env.verify_bls_sig pk s1 m1 = true)
    (hb2 : env.verify_bls_sig pk s2 m2 = true) :
    (∀ v, note.val = some v →
      ((slash st env pk m1 m2 s1 s2 note t1Ok t2Ok).1 = true →
        t1Ok = true ∧ t2Ok = true ∧
        (slash st env pk m1 m2 s1 s2 note t1Ok t2Ok).2.2.length = 2) ∧
      (t1Ok = false →
        (slash st env pk m1 m2 s1 s2 note t1Ok t2Ok).1 = false ∧
        ((slash st env pk m1 m2 s1 s2 note t1Ok t2Ok).2.2 = [] ∨
          (slash st env pk m1 m2 s1 s2 note t1Ok t2Ok).2.2 =
            [Transfer.withdrawFromContractTransparent env.caller note]))) ∧
    (note.val = none →
      slash st env pk m1 m2 s1 s2 note t1Ok t2Ok = (true, st, [])) := by
  constructor
  · intro v hnv
    by_cases hvp : v = PENALTY
    · subst hvp
      cases t1Ok with
      | false =>
        rw [slash_eval_t1fail st env pk m1 m2 s1 s2 note t2Ok hm hb1 hb2 hnv]
        refine ⟨?_, ?_⟩
        · intro hfalse
          cases hfalse
        · intro hfalse
          exact ⟨rfl, Or.inr rfl⟩
      | true =>
        rw [slash_eval_full st env pk m1 m2 s1 s2 note t2Ok hm hb1 hb2 hnv]
        refine ⟨?_, ?_⟩
        · intro ht2
          exact ⟨rfl, ht2, rfl⟩
        · intro hfalse
          cases hfalse
    · rw [slash_eval_badvalue st env pk m1 m2 s1 s2 note t1Ok t2Ok hm hb1 hb2
        hnv hvp]
      refine ⟨?_, ?_⟩
      · intro hfalse
        cases hfalse
      · intro hfalse
        exact ⟨rfl, Or.inl rfl⟩
  · intro hnv
    exact slash_eval_nonote st env pk m1 m2 s1 s2 note t1Ok t2Ok hm hb1 hb2 hnv

/-- Witness for C3 amended: with a readable note of exactly PENALTY and
both transfers succeeding, the success result certifies that both
transfers were issued; with a failed first transfer the result is a
failure with at most the first transfer issued. -/
theorem slash_transfer_discipline_witness :
    (true = true ∧ true = true ∧
      (slash stA envW 7 1 2 3 4 (Note.mk (some PENALTY)) true true).2.2.length =
        2) ∧
    ((slash stA envW 7 1 2 3 4 (Note.mk (some PENALTY)) false true).1 =
        false ∧
      ((slash stA envW 7 1 2 3 4 (Note.mk (some PENALTY)) false true).2.2 =
          [] ∨
        (slash stA envW 7 1 2 3 4 (Note.mk (some PENALTY)) false true).2.2 =
          [Transfer.withdrawFromContractTransparent envW.caller
            (Note.mk (some PENALTY))])) :=
  ⟨((slash_transfer_discipline stA envW 7 1 2 3 4 (Note.mk (some PENALTY))
        true true (by decide) rfl rfl).1 PENALTY rfl).1 (by decide),
   ((slash_transfer_discipline stA envW 7 1 2 3 4 (Note.mk (some PENALTY))
        false true (by decide) rfl rfl).1 PENALTY rfl).2 rfl⟩

/-- Claim C4: each slash gate — message equality, first signature, second
signature, a readable note value different from PENALTY — failing makes
slash return false with the state unchanged and no transfer issued; the
message-equality gate trips for any public key and signatures, and the
penalty gate trips even when both signatures verify. -/
theorem slash_gates (st : StakeContract) (env : Env) (pk m1 m2 s1 s2 : Nat)
    (note : Note) (t1Ok t2Ok : Bool) :
    (m1 = m2 →
      slash st env pk m1 m2 s1 s2 note t1Ok t2Ok = (false, st, [])) ∧
    (env.verify_bls_sig pk s1 m1 = false →
      slash st env pk m1 m2 s1 s2 note t1Ok t2Ok = (false, st, [])) ∧
    (env.verify_bls_sig pk s2 m2 = false →
      slash st env pk m1 m2 s1 s2 note t1Ok t2Ok = (false, st, [])) ∧
    (∀ v, note.val = some v → v ≠ PENALTY →
      slash st env pk m1 m2 s1 s2 note t1Ok t2Ok = (false, st, [])) := by
  refine ⟨?_, ?_, ?_, ?_⟩
  · intro hm
    exact slash_eval_eqmsg st env pk m1 m2 s1 s2 note t1Ok t2Ok hm
  · intro hb1
    exact slash_eval_badsig1 st env pk m1 m2 s1 s2 note t1Ok t2Ok hb1
  · intro hb2
    exact slash_eval_badsig2 st env pk m1 m2 s1 s2 note t1Ok t2Ok hb2
  · intro v hnv hvp
    by_cases hm : m1 = m2
    · exact slash_eval_eqmsg st env pk m1 m2 s1 s2 note t1Ok t2Ok hm
    · cases hb1 : env.verify_bls_sig pk s1 m1 with
      | false =>
        exact slash_eval_badsig1 st env pk m1 m2 s1 s2 note t1Ok t2Ok hb1
      | true =>
        cases hb2 : env.verify_bls_sig pk s2 m2 with
        | false =>
          exact slash_eval_badsig2 st env pk m1 m2 s1 s2 note t1Ok t2Ok hb2
        | true =>
          exact slash_eval_badvalue st env pk m1 m2 s1 s2 note t1Ok t2Ok hm
            hb1 hb2 hnv hvp

/-- Witness for C4: equal messages make slash fail outright, and a
readable note of 4999 units (49990000000000, different from PENALTY)
makes it fail under an oracle accepting every signature. -/
theorem slash_gates_witness :
    slash stA envW 7 5 5 3 4 (Note.mk (some PENALTY)) true true =
      (false, stA, []) ∧
    slash stA envW 7 1 2 3 4 (Note.mk (some 49990000000000)) true true =
      (false, stA, []) :=
  ⟨(slash_gates stA envW 7 5 5 3 4 (Note.mk (some PENALTY)) true true).1 rfl,
   (slash_gates stA envW 7 1 2 3 4 (Note.mk (some 49990000000000)) true
        true).2.2.2 49990000000000 rfl (by decide)⟩

/-- Claim C9: when slash reaches its second transfer step, it moves the
located stake value minus PENALTY to the arbitration contract at heights
below 6311520 and to the default contract id at heights at or above it. -/
theorem slash_destination (st : StakeContract) (env : Env)
    (pk m1 m2 s1 s2 : Nat) (note : Note) (t2Ok : Bool)
    (hm : m1 ≠ m2) (hb1 : env.verify_bls_sig pk s1 m1 = true)
    (hb2 : env.verify_bls_sig pk s2 m2 = true)
    (hnv : note.val = some PENALTY)
    (hpen : PENALTY ≤ (find_stake st pk).value)
    (hlt : (find_stake st pk).value < U64MOD) :
    (slash st env pk m1 m2 s1 s2 note true t2Ok).2.2 =
      [Transfer.withdrawFromContractTransparent env.caller note,
       Transfer.withdrawFromTransparentToContract
         ((find_stake st pk).value - PENALTY)
         (if env.block_height < 6311520 then st.arbitration_contract else 0)
         ((find_stake st pk).value - PENALTY)] := by
  rw [slash_eval_full st env pk m1 m2 s1 s2 note t2Ok hm hb1 hb2 hnv]
  rw [sub64_eq_of_le hpen hlt]

/-- Witness for C9: at height 100 (below the cutoff) the second transfer
of a successful slash on stA carries the stake value minus PENALTY and
targets the arbitration contract id 22. -/
theorem slash_destination_witness :
    (slash stA envW 7 1 2 3 4 (Note.mk (some PENALTY)) true true).2.2 =
      [Transfer.withdrawFromContractTransparent envW.caller
        (Note.mk (some PENALTY)),
       Transfer.withdrawFromTransparentToContract
         ((find_stake stA 7).value - PENALTY)
         (if envW.block_height < 6311520 then stA.arbitration_contract else 0)
         ((find_stake stA 7).value - PENALTY)] :=
  slash_destination stA envW 7 1 2 3 4 (Note.mk (some PENALTY)) true
    (by decide) rfl rfl rfl (by decide) (by decide)

/-- Claim C10: slash never mutates the stake store — counter, identifier
set and mapping are returned unchanged on every branch — and therefore a
repeated slash with the same arguments behaves identically instead of
failing as not-found. -/
theorem slash_frame (st : StakeContract) (env : Env) (pk m1 m2 s1 s2 : Nat)
    (note : Note) (t1Ok t2Ok : Bool) :
    (slash st env pk m1 m2 s1 s2 note t1Ok t2Ok).2.1 = st ∧
    slash (slash st env pk m1 m2 s1 s2 note t1Ok t2Ok).2.1 env pk m1 m2 s1 s2
        note t1Ok t2Ok =
      slash st env pk m1 m2 s1 s2 note t1Ok t2Ok := by
  have hstate := slash_state st env pk m1 m2 s1 s2 note t1Ok t2Ok
  exact ⟨hstate, by rw [hstate]⟩

end StakeSpec
